import Mathlib

/-!
# Verification of the jellyfish-chain core against its specification

Shallow embedding of `jellyfish-core` (Rust) into Lean 4.

Conventions of the embedding:
* Machine integers `u64` are modelled as `Nat` with explicit `% 2^64` wherever
  Rust's (release-mode) wrapping arithmetic can overflow; `i64` is modelled as
  `Int` with explicit `% 2^64` at the byte-encoding boundary.
* A byte is a `Nat` (values of interest are `< 256`; the bit-scanning loop of
  `difficulty.rs` only ever inspects bits 0..7, exactly like the Rust code).
* The `ByteOrder` trait method `append_bytes(&self, buf: &mut Vec<u8>)` is
  modelled as a function `Bytes → Bytes` taking the buffer and returning the
  extended buffer; `ByteOrderBuilder` chains such appends starting from `[]`.
* The SHA-256 function (`crate::digest::calculate_digest` / `Sha256Digest`,
  whose defining module is not part of the sources) is a parameter
  `hash : Bytes → Bytes` of every definition that hashes.
* The ed25519 signature scheme (external `ed25519_dalek` crate) is modelled
  symbolically as a perfect signature scheme.
-/

namespace Jellyfish

/-- A byte string; each element is one byte. -/
abbrev Bytes := List Nat

/-! ## difficulty.rs -/

/-- The inner `while` loop of `count_first_0_bit`:
`flag` starts at `1 << 7` and is shifted right until it reaches 0, counting
while `x & flag == 0` and breaking at the first set bit.  We index the loop by
the number of remaining flag positions, so at argument `n+1` the flag is
`2^n`; `count_first_0_bit x = count_first_0_bit_loop x 8` starts at flag
`2^7 = 1 << (8 - 1)` exactly as in the source. -/
def count_first_0_bit_loop (x : Nat) : Nat → Nat
  | 0 => 0
  | n + 1 => if x &&& 2 ^ n = 0 then 1 + count_first_0_bit_loop x n else 0

/-- `count_first_0_bit` from `difficulty.rs`: number of leading zero bits of a
byte (scanning from bit 7 down to bit 0, stopping at the first set bit). -/
def count_first_0_bit (x : Nat) : Nat :=
  count_first_0_bit_loop x 8

/-- `count_first_0_bits` from `difficulty.rs`: iterate over the bytes; a byte
counting 8 contributes 8 and the scan continues, any other count is added and
the scan breaks. -/
def count_first_0_bits : Bytes → Nat
  | [] => 0
  | b :: rest =>
    if count_first_0_bit b = 8 then 8 + count_first_0_bits rest
    else count_first_0_bit b

/-- `Difficulty` from `difficulty.rs`: a newtype over `u64`. -/
structure Difficulty where
  val : Nat
  deriving Repr, DecidableEq

/-- `Difficulty::verify_digest`: the digest satisfies the difficulty iff
`count_first_0_bits(digest) >= self.0`. -/
def Difficulty.verify_digest (d : Difficulty) (digest : Bytes) : Bool :=
  decide (d.val ≤ count_first_0_bits digest)

/-- `Difficulty::raise`: `Self(self.0 + 1)` under `u64` (wrapping)
arithmetic. -/
def Difficulty.raise (d : Difficulty) : Difficulty :=
  ⟨(d.val + 1) % 2 ^ 64⟩

/-- `Difficulty::ease`: `max(Self(self.0 - 1), MIN_DIFFICULTY)` under `u64`
(wrapping) arithmetic.

Modelled from the spec: the constant `jellyfish_core::constant::MIN_DIFFICULTY`
lives in a `constant` module that is not among the sources; the spec leaves its
exact value open ("the exact floor is ambiguous across design revisions"), so
the floor is taken as an explicit parameter `minDifficulty`. -/
def Difficulty.ease (minDifficulty : Nat) (d : Difficulty) : Difficulty :=
  ⟨max ((d.val + (2 ^ 64 - 1)) % 2 ^ 64) minDifficulty⟩

/-! ### Specification-side reformulation of leading-zero-bit counting -/

/-- The bits of a byte, most significant first (bits 7 down to 0), as the
spec's "leading-zero-bit" reading of a byte string. -/
def bitsOfByte (b : Nat) : List Bool :=
  [b.testBit 7, b.testBit 6, b.testBit 5, b.testBit 4,
   b.testBit 3, b.testBit 2, b.testBit 1, b.testBit 0]

/-- Number of leading `false` entries of a bit string. -/
def countLeadingFalse : List Bool → Nat
  | [] => 0
  | b :: rest => if b then 0 else 1 + countLeadingFalse rest

/-- The spec's count: leading zero bits of the whole byte string read as a
bit string (each byte most-significant-bit first). -/
def leadingZeroBits (bytes : Bytes) : Nat :=
  countLeadingFalse (bytes.map bitsOfByte).flatten

/-- The boundary digest of the spec: first byte `0x00`, the remaining 31
bytes `0xFF`. -/
def boundaryDigest : Bytes := 0 :: List.replicate 31 255

/-- Bits of a byte from bit `n-1` down to bit 0. -/
def bitsDown (b : Nat) : Nat → List Bool
  | 0 => []
  | n + 1 => b.testBit n :: bitsDown b n

theorem bitsOfByte_eq_bitsDown (b : Nat) : bitsOfByte b = bitsDown b 8 := by
  simp [bitsOfByte, bitsDown]

theorem and_two_pow_eq_zero_iff (x n : Nat) :
    x &&& 2 ^ n = 0 ↔ x.testBit n = false := by
  rw [Nat.and_two_pow]
  cases h : x.testBit n <;> simp [h]

theorem count_first_0_bit_loop_eq (x : Nat) :
    ∀ n, count_first_0_bit_loop x n = countLeadingFalse (bitsDown x n) := by
  intro n
  induction n with
  | zero => simp [count_first_0_bit_loop, bitsDown, countLeadingFalse]
  | succ n ih =>
    simp only [count_first_0_bit_loop, bitsDown, countLeadingFalse]
    rcases h : x.testBit n with _ | _
    · rw [if_pos ((and_two_pow_eq_zero_iff x n).mpr h), ih]
      simp
    · rw [if_neg]
      · simp
      · intro hz
        rw [(and_two_pow_eq_zero_iff x n).mp hz] at h
        exact Bool.false_ne_true h

theorem count_first_0_bit_eq (b : Nat) :
    count_first_0_bit b = countLeadingFalse (bitsOfByte b) := by
  rw [count_first_0_bit, bitsOfByte_eq_bitsDown, count_first_0_bit_loop_eq]

theorem count_first_0_bit_loop_le (x : Nat) :
    ∀ n, count_first_0_bit_loop x n ≤ n := by
  intro n
  induction n with
  | zero => simp [count_first_0_bit_loop]
  | succ n ih =>
    simp only [count_first_0_bit_loop]
    split
    · omega
    · omega

theorem count_first_0_bit_le (b : Nat) : count_first_0_bit b ≤ 8 :=
  count_first_0_bit_loop_le b 8

theorem countLeadingFalse_le (l : List Bool) : countLeadingFalse l ≤ l.length := by
  induction l with
  | nil => simp [countLeadingFalse]
  | cons b rest ih =>
    simp only [countLeadingFalse, List.length_cons]
    split
    · omega
    · omega

theorem countLeadingFalse_append (l₂ : List Bool) :
    ∀ l₁, countLeadingFalse (l₁ ++ l₂) =
      if countLeadingFalse l₁ = l₁.length
      then l₁.length + countLeadingFalse l₂
      else countLeadingFalse l₁
  | [] => by simp [countLeadingFalse]
  | true :: rest => by simp [countLeadingFalse]
  | false :: rest => by
    have hle := countLeadingFalse_le rest
    have ih := countLeadingFalse_append l₂ rest
    simp only [List.cons_append, List.append_eq, countLeadingFalse, List.length_cons,
      Bool.false_eq_true, if_false] at ih ⊢
    rw [ih]
    split <;> split <;> omega

theorem length_bitsOfByte (b : Nat) : (bitsOfByte b).length = 8 := by
  simp [bitsOfByte]

/-- Refinement: the byte-wise scanning loop of `difficulty.rs` computes the
leading-zero-bit count of the byte string read as a bit string. -/
theorem count_first_0_bits_eq (g : Bytes) :
    count_first_0_bits g = leadingZeroBits g := by
  induction g with
  | nil => simp [count_first_0_bits, leadingZeroBits, countLeadingFalse]
  | cons b rest ih =>
    have hbit := count_first_0_bit_eq b
    simp only [leadingZeroBits, List.map_cons, List.flatten_cons]
    rw [countLeadingFalse_append, length_bitsOfByte, ← hbit]
    simp only [count_first_0_bits]
    by_cases h8 : count_first_0_bit b = 8
    · rw [if_pos h8, if_pos h8, ih]
      rfl
    · rw [if_neg h8, if_neg h8]

theorem count_first_0_bits_le (g : Bytes) :
    count_first_0_bits g ≤ 8 * g.length := by
  induction g with
  | nil => simp [count_first_0_bits]
  | cons b rest ih =>
    have hle := count_first_0_bit_le b
    simp only [count_first_0_bits, List.length_cons]
    split <;> omega

/-- **C3.** `verify_digest(d, g)` returns `true` iff the number of leading
zero bits of `g` — counted byte by byte, left to right, 0 to 8 per byte,
stopping at the first set bit, i.e. the leading-zero count of `g` read as a
bit string — is at least `d`; and the digest whose first byte is `0x00` and
whose remaining 31 bytes are `0xFF` satisfies difficulty 8 but not 9. -/
theorem verify_digest_iff_leadingZeroBits (d : Nat) (g : Bytes) :
    (Difficulty.verify_digest ⟨d⟩ g = true ↔ d ≤ leadingZeroBits g) ∧
      Difficulty.verify_digest ⟨8⟩ boundaryDigest = true ∧
      Difficulty.verify_digest ⟨9⟩ boundaryDigest = false := by
  refine ⟨?_, by decide, by decide⟩
  rw [Difficulty.verify_digest, ← count_first_0_bits_eq]
  simp

/-- **C9.** Under the implementation's `u64` arithmetic, `raise` returns
`d + 1` (wrapping only at `u64::MAX`), and `ease` returns
`max(d - 1, MIN_DIFFICULTY)` (with `d - 1` wrapping at `d = 0`), so `ease`
never returns a value below the floor `MIN_DIFFICULTY`, for every `u64`
difficulty `d` and every value `m` of the floor constant. -/
theorem raise_ease_spec (m d : Nat) :
    (d + 1 < 2 ^ 64 → Difficulty.raise ⟨d⟩ = ⟨d + 1⟩) ∧
      Difficulty.raise ⟨2 ^ 64 - 1⟩ = ⟨0⟩ ∧
      m ≤ (Difficulty.ease m ⟨d⟩).val ∧
      (1 ≤ d → d < 2 ^ 64 → Difficulty.ease m ⟨d⟩ = ⟨max (d - 1) m⟩) ∧
      Difficulty.ease m ⟨0⟩ = ⟨max (2 ^ 64 - 1) m⟩ := by
  refine ⟨?_, ?_, ?_, ?_, ?_⟩
  · intro h
    exact congrArg Difficulty.mk (by show (d + 1) % 2 ^ 64 = d + 1; omega)
  · exact congrArg Difficulty.mk (by show (2 ^ 64 - 1 + 1) % 2 ^ 64 = 0; omega)
  · exact Nat.le_max_right _ _
  · intro h1 h2
    have h : (d + (2 ^ 64 - 1)) % 2 ^ 64 = d - 1 := by omega
    exact congrArg Difficulty.mk (by rw [h])
  · have h : ((0 : Nat) + (2 ^ 64 - 1)) % 2 ^ 64 = 2 ^ 64 - 1 := by omega
    exact congrArg Difficulty.mk (by rw [h])

/-- Witness for C9 at `m = 3`, `d = 5`. -/
theorem raise_ease_spec_witness :
    Difficulty.raise ⟨5⟩ = ⟨6⟩ ∧ 3 ≤ (Difficulty.ease 3 ⟨5⟩).val ∧
      Difficulty.ease 3 ⟨5⟩ = ⟨max 4 3⟩ := by
  obtain ⟨h1, _, h3, h4, _⟩ := raise_ease_spec 3 5
  exact ⟨h1 (by norm_num), h3, h4 (by norm_num) (by norm_num)⟩

/-- **C10.** Every 32-byte digest has at most 256 leading zero bits, so every
difficulty threshold strictly greater than 256 is unsatisfiable:
`verify_digest` returns `false` for every digest; such thresholds are
reachable, e.g. `raise` at 256 yields 257. -/
theorem difficulty_above_256_unsat (d : Nat) (g : Bytes) (hg : g.length = 32)
    (hd : 256 < d) :
    count_first_0_bits g ≤ 256 ∧ Difficulty.verify_digest ⟨d⟩ g = false ∧
      Difficulty.raise ⟨256⟩ = ⟨257⟩ := by
  have hle : count_first_0_bits g ≤ 256 := by
    have := count_first_0_bits_le g
    omega
  refine ⟨hle, ?_, rfl⟩
  simp only [Difficulty.verify_digest, decide_eq_false_iff_not]
  omega

/-- Witness for C10 at the all-zero 32-byte digest and threshold 257. -/
theorem difficulty_above_256_unsat_witness :
    count_first_0_bits (List.replicate 32 0) ≤ 256 ∧
      Difficulty.verify_digest ⟨257⟩ (List.replicate 32 0) = false ∧
      Difficulty.raise ⟨256⟩ = ⟨257⟩ :=
  difficulty_above_256_unsat 257 (List.replicate 32 0) (by simp) (by norm_num)

/-! ## byteorder.rs — canonical byte encodings

`trait ByteOrder { fn append_bytes(&self, buf: &mut Vec<u8>); }` is modelled
per implementing type as a function `X → Bytes → Bytes` taking and returning
the buffer; `ByteOrderBuilder::new().append(a).append(b)...finalize()` is the
chain of such applications starting from the empty buffer. -/

/-- `u64::to_be_bytes`. -/
def u64_to_be_bytes (n : Nat) : Bytes :=
  [n / 2 ^ 56 % 256, n / 2 ^ 48 % 256, n / 2 ^ 40 % 256, n / 2 ^ 32 % 256,
   n / 2 ^ 24 % 256, n / 2 ^ 16 % 256, n / 2 ^ 8 % 256, n % 256]

/-- `u64::to_le_bytes`. -/
def u64_to_le_bytes (n : Nat) : Bytes :=
  [n % 256, n / 2 ^ 8 % 256, n / 2 ^ 16 % 256, n / 2 ^ 24 % 256,
   n / 2 ^ 32 % 256, n / 2 ^ 40 % 256, n / 2 ^ 48 % 256, n / 2 ^ 56 % 256]

/-- `i64::to_le_bytes`: the little-endian bytes of the value's two's
complement representative in `[0, 2^64)`. -/
def i64_to_le_bytes (t : Int) : Bytes :=
  u64_to_le_bytes (t % 2 ^ 64).toNat

/-- `impl ByteOrder for Difficulty` (`difficulty.rs`): little-endian `u64`. -/
def Difficulty.append_bytes (d : Difficulty) (buf : Bytes) : Bytes :=
  buf ++ u64_to_le_bytes d.val

/-! ## timestamp.rs -/

/-- `Timestamp` from `timestamp.rs`: nanoseconds since the Unix epoch as
`i64`. -/
structure Timestamp where
  nanos : Int
  deriving Repr, DecidableEq

/-- `impl ByteOrder for Timestamp`: little-endian `i64`. -/
def Timestamp.append_bytes (t : Timestamp) (buf : Bytes) : Bytes :=
  buf ++ i64_to_le_bytes t.nanos

/-! ## account.rs and signature.rs — symbolic signature scheme

Modelled from the spec: the ed25519 primitives come from the external
`ed25519_dalek` crate, whose code is not part of this repository.  Per the
spec, signing is deterministic given (private key, message), verification
succeeds exactly on signatures produced by the key owner over the same
message, and key pairs bind a private key to a public identity.  We model
this as a perfect signature scheme: a `SecretAccount` is identified by the
public `Account` it answers for, and a `Signature` is determined by the
signing key's public identity together with the signed message. -/

/-- `Account` from `account.rs`: the public identity; `name` holds the
public-key bytes. -/
structure Account where
  name : Bytes
  deriving Repr, DecidableEq

/-- `impl ByteOrder for Account`: append the public-key bytes. -/
def Account.append_bytes (a : Account) (buf : Bytes) : Bytes :=
  buf ++ a.name

/-- Modelled from the spec: a signature value of the perfect scheme records
the signer's public identity and the signed message. -/
structure Signature where
  signer : Account
  message : Bytes
  deriving Repr, DecidableEq

/-- Modelled from the spec: the opaque 64-byte representation of a signature
(`Signature::as_ref`), used as the merkle-leaf preimage. -/
def Signature.bytes (s : Signature) : Bytes :=
  s.signer.name ++ s.message

/-- `impl ByteOrder for Signature`: append the raw signature bytes. -/
def Signature.append_bytes (s : Signature) (buf : Bytes) : Bytes :=
  buf ++ s.bytes

/-- `SignatureError` from `signature.rs` (the wrapped ed25519 error is
opaque). -/
inductive SignatureError where
  | invalid
  deriving Repr, DecidableEq

/-- `SecretAccount` from `account.rs`, symbolically: the key pair is
identified by its public part. -/
structure SecretAccount where
  publicAccount : Account
  deriving Repr, DecidableEq

/-- `SecretAccount::to_public`. -/
def SecretAccount.to_public (sk : SecretAccount) : Account :=
  sk.publicAccount

/-- `SecretAccount::sign`: deterministic signature of the key holder over the
message. -/
def SecretAccount.sign (sk : SecretAccount) (msg : Bytes) : Signature :=
  ⟨sk.publicAccount, msg⟩

/-- `Account::verify`: succeeds exactly on the signature the account's key
holder produces over this very message. -/
def Account.verify (a : Account) (msg : Bytes) (sign : Signature) :
    Except SignatureError Unit :=
  if sign = ⟨a, msg⟩ then Except.ok () else Except.error SignatureError.invalid

/-! ## verification.rs and transaction.rs -/

/-- The two verification-state markers `Yet` and `Verified` of
`verification.rs`, as the index of state-tagged types. -/
inductive VState where
  | yet
  | verified
  deriving Repr, DecidableEq

/-- `Transaction<T, V>` from `transaction.rs`.  The phantom marker `V` is the
type-level index; the four data fields match the source. -/
structure Transaction (T : Type) (V : VState) where
  account : Account
  timestamp : Timestamp
  content : T
  sign : Signature

/-- The verification-state tag of a transaction, read off its type. -/
def Transaction.state {T : Type} {V : VState} (_tx : Transaction T V) : VState :=
  V

/-- `TransactionWithoutMarker<T>` from `transaction.rs`: the deserialization
intermediate carrying the four data fields and no marker. -/
structure TransactionWithoutMarker (T : Type) where
  account : Account
  timestamp : Timestamp
  content : T
  sign : Signature

/-- `impl Deserialize for Transaction<T, Yet>`: deserialize the marker-less
fields, then tag the result `Yet`.  This is the only deserialization path for
transactions; its codomain is fixed at the `yet` index. -/
def Transaction.deserialize {T : Type} (inner : TransactionWithoutMarker T) :
    Transaction T VState.yet :=
  ⟨inner.account, inner.timestamp, inner.content, inner.sign⟩

/-- `build_signature_source` from `transaction.rs`:
`ByteOrderBuilder::new().append(account).append(&timestamp).append(content).finalize()`.
A Rust content type `T: ByteOrder` is modelled by its canonical-byte function
`enc`; per the trait contract (§4.1 of the spec) `append` extends the buffer
with the value's canonical bytes. -/
def build_signature_source {T : Type} (enc : T → Bytes) (account : Account)
    (timestamp : Timestamp) (content : T) : Bytes :=
  Timestamp.append_bytes timestamp (Account.append_bytes account []) ++ enc content

/-- `TransactionError` from `transaction.rs`. -/
inductive TransactionError where
  | Signature (e : SignatureError)
  deriving Repr, DecidableEq

/-- `Transaction::create`: sign the canonical source under the secret
account; the result is tagged `Verified`. -/
def Transaction.create {T : Type} (enc : T → Bytes) (secret_account : SecretAccount)
    (timestamp : Timestamp) (content : T) : Transaction T VState.verified :=
  let account := secret_account.to_public
  let signature_source := build_signature_source enc account timestamp content
  let sign := secret_account.sign signature_source
  ⟨account, timestamp, content, sign⟩

/-- `Transaction::verify`: rebuild the canonical source from the
transaction's own fields and check the embedded signature against the
embedded account. -/
def Transaction.verify {T : Type} (enc : T → Bytes) (tx : Transaction T VState.yet) :
    Except TransactionError (Transaction T VState.verified) :=
  let signature_source := build_signature_source enc tx.account tx.timestamp tx.content
  match tx.account.verify signature_source tx.sign with
  | Except.ok () => Except.ok ⟨tx.account, tx.timestamp, tx.content, tx.sign⟩
  | Except.error e => Except.error (TransactionError.Signature e)

/-- Forgetting the verification tag: the same four fields re-tagged `Yet`
(this is what serializing and re-deserializing a transaction does to the
marker). -/
def Transaction.asYet {T : Type} {V : VState} (tx : Transaction T V) :
    Transaction T VState.yet :=
  ⟨tx.account, tx.timestamp, tx.content, tx.sign⟩

theorem Transaction.verify_of_sign_ne {T : Type} (enc : T → Bytes)
    (tx : Transaction T VState.yet)
    (h : tx.sign ≠ ⟨tx.account, build_signature_source enc tx.account tx.timestamp tx.content⟩) :
    Transaction.verify enc tx = Except.error (TransactionError.Signature SignatureError.invalid) := by
  simp [Transaction.verify, Account.verify, h]

theorem signature_source_layout {T : Type} (enc : T → Bytes) (a : Account)
    (t : Timestamp) (c : T) :
    build_signature_source enc a t c = a.name ++ (i64_to_le_bytes t.nanos ++ enc c) := by
  simp [build_signature_source, Account.append_bytes, Timestamp.append_bytes]

/-- **C5.** The byte sequence signed by `Transaction::create` and re-checked
by `Transaction::verify` is exactly: the account's public-key identity bytes,
then the timestamp's little-endian `i64` bytes, then the content's canonical
bytes — nothing else. -/
theorem build_signature_source_eq {T : Type} (enc : T → Bytes) (a : Account)
    (t : Timestamp) (c : T) :
    build_signature_source enc a t c = a.name ++ (i64_to_le_bytes t.nanos ++ enc c) :=
  signature_source_layout enc a t c

/-- **C2.** Round trip: `create` a transaction, re-tag it `Yet` with all four
fields unchanged, `verify` it — verification succeeds and returns a
`Verified` transaction with the same account, timestamp, content and sign as
the created one. -/
theorem create_verify_roundtrip {T : Type} (enc : T → Bytes) (sk : SecretAccount)
    (t : Timestamp) (c : T) :
    Transaction.verify enc (Transaction.create enc sk t c).asYet =
      Except.ok (Transaction.create enc sk t c) := by
  simp [Transaction.verify, Transaction.create, Transaction.asYet,
    Account.verify, SecretAccount.sign, SecretAccount.to_public]

/-- **C6.** Deserialization always lands in the `Yet` state with the four
deserialized fields unchanged; a `Verified` transaction arises only from
`Transaction::create` (whose codomain is the `verified` index) or from a
successful `verify` of a `Yet` transaction. -/
theorem deserialize_always_yet {T : Type} (inner : TransactionWithoutMarker T)
    (enc : T → Bytes) (sk : SecretAccount) (t : Timestamp) (c : T) :
    (Transaction.deserialize inner).state = VState.yet ∧
      (Transaction.deserialize inner).account = inner.account ∧
      (Transaction.deserialize inner).timestamp = inner.timestamp ∧
      (Transaction.deserialize inner).content = inner.content ∧
      (Transaction.deserialize inner).sign = inner.sign ∧
      (Transaction.create enc sk t c).state = VState.verified ∧
      (∀ tx : Transaction T VState.yet, ∀ vtx,
        Transaction.verify enc tx = Except.ok vtx → vtx.state = VState.verified) :=
  ⟨rfl, rfl, rfl, rfl, rfl, rfl, fun _ _ _ => rfl⟩

/-! ### Concrete values used by witnesses -/

/-- A concrete account. -/
def wAccount : Account := ⟨[1]⟩

/-- A second, distinct concrete account. -/
def wAccount2 : Account := ⟨[2]⟩

/-- A concrete secret account answering for `wAccount`. -/
def wSecret : SecretAccount := ⟨wAccount⟩

/-- A concrete timestamp. -/
def wTimestamp : Timestamp := ⟨0⟩

/-- A trivial content encoder on `Unit`. -/
def wEncUnit : Unit → Bytes := fun _ => []

/-- A content encoder on `Bool` that IGNORES the value: two different
contents share one canonical byte string. -/
def wEncBoolConst : Bool → Bytes := fun _ => []

/-- An injective content encoder on `Bool`. -/
def wEncBool : Bool → Bytes := fun b => [if b then 1 else 0]

/-- A concrete marker-less transaction for deserialization. -/
def wInner : TransactionWithoutMarker Unit := ⟨wAccount, wTimestamp, (), ⟨wAccount, []⟩⟩

/-- A concrete unverified transaction whose signature checks out. -/
def wYetTx : Transaction Unit VState.yet :=
  ⟨wAccount, wTimestamp, (), ⟨wAccount, build_signature_source wEncUnit wAccount wTimestamp ()⟩⟩

/-- Witness for C6 at a concrete marker-less transaction and a concrete
verifiable `Yet` transaction. -/
theorem deserialize_always_yet_witness :
    (Transaction.deserialize wInner).state = VState.yet ∧
      (Transaction.create wEncUnit wSecret wTimestamp ()).state = VState.verified ∧
      (⟨wAccount, wTimestamp, (), wYetTx.sign⟩ : Transaction Unit VState.verified).state =
        VState.verified := by
  obtain ⟨h1, -, -, -, -, h6, h7⟩ :=
    deserialize_always_yet wInner wEncUnit wSecret wTimestamp ()
  exact ⟨h1, h6, h7 wYetTx ⟨wAccount, wTimestamp, (), wYetTx.sign⟩ rfl⟩

/-- **C7, counterexample.** Under a content type whose canonical encoding is
not injective (here: `Bool` encoded by a constant function), changing the
content to a different value leaves the signature source unchanged, and
`verify` succeeds instead of returning a signature error — refuting the
claim's "for every content type supporting canonical encoding". -/
theorem mutate_content_can_verify :
    (false ≠ true) ∧
      Transaction.verify wEncBoolConst
        ⟨(Transaction.create wEncBoolConst wSecret wTimestamp true).account,
         (Transaction.create wEncBoolConst wSecret wTimestamp true).timestamp,
         false,
         (Transaction.create wEncBoolConst wSecret wTimestamp true).sign⟩ =
      Except.ok
        ⟨(Transaction.create wEncBoolConst wSecret wTimestamp true).account,
         (Transaction.create wEncBoolConst wSecret wTimestamp true).timestamp,
         false,
         (Transaction.create wEncBoolConst wSecret wTimestamp true).sign⟩ :=
  ⟨by decide, rfl⟩

theorem u64_to_le_bytes_inj {a b : Nat} (ha : a < 2 ^ 64) (hb : b < 2 ^ 64)
    (h : u64_to_le_bytes a = u64_to_le_bytes b) : a = b := by
  simp only [u64_to_le_bytes, List.cons.injEq, and_true] at h
  omega

theorem i64_to_le_bytes_inj {a b : Int} (ha₁ : -(2 ^ 63) ≤ a) (ha₂ : a < 2 ^ 63)
    (hb₁ : -(2 ^ 63) ≤ b) (hb₂ : b < 2 ^ 63)
    (h : i64_to_le_bytes a = i64_to_le_bytes b) : a = b := by
  rw [i64_to_le_bytes, i64_to_le_bytes] at h
  have := @u64_to_le_bytes_inj (a % 2 ^ 64).toNat (b % 2 ^ 64).toNat
    (by omega) (by omega) h
  omega

/-- **C7, amended.** Take a transaction produced by `Transaction::create`,
re-tag it `Yet`, and mutate exactly one signed field before calling `verify`:
a different account, a different timestamp (any two `i64` timestamps), or a
different signature always produce a signature error; a different content
produces a signature error whenever its canonical bytes differ from the
original content's — which is where the original claim needed amending: a
content encoding need not be injective, and equal canonical bytes verify
successfully (see the counterexample). -/
theorem mutate_field_verify_fails {T : Type} (enc : T → Bytes) (sk : SecretAccount)
    (t : Timestamp) (c : T) :
    (∀ a' : Account, a' ≠ (Transaction.create enc sk t c).account →
        Transaction.verify enc ⟨a', t, c, (Transaction.create enc sk t c).sign⟩ =
          Except.error (TransactionError.Signature SignatureError.invalid)) ∧
      (∀ t' : Timestamp, t' ≠ t →
        -(2 ^ 63) ≤ t'.nanos → t'.nanos < 2 ^ 63 → -(2 ^ 63) ≤ t.nanos → t.nanos < 2 ^ 63 →
        Transaction.verify enc
            ⟨(Transaction.create enc sk t c).account, t', c, (Transaction.create enc sk t c).sign⟩ =
          Except.error (TransactionError.Signature SignatureError.invalid)) ∧
      (∀ c' : T, enc c' ≠ enc c →
        Transaction.verify enc
            ⟨(Transaction.create enc sk t c).account, t, c', (Transaction.create enc sk t c).sign⟩ =
          Except.error (TransactionError.Signature SignatureError.invalid)) ∧
      (∀ s' : Signature, s' ≠ (Transaction.create enc sk t c).sign →
        Transaction.verify enc ⟨(Transaction.create enc sk t c).account, t, c, s'⟩ =
          Except.error (TransactionError.Signature SignatureError.invalid)) := by
  refine ⟨?_, ?_, ?_, ?_⟩
  · intro a' ha
    apply Transaction.verify_of_sign_ne
    dsimp only [Transaction.create, SecretAccount.to_public, SecretAccount.sign] at ha ⊢
    intro hcontra
    exact ha (congrArg Signature.signer hcontra).symm
  · intro t' ht ht1 ht2 ht3 ht4
    apply Transaction.verify_of_sign_ne
    dsimp only [Transaction.create, SecretAccount.to_public, SecretAccount.sign]
    intro hcontra
    have hmsg := congrArg Signature.message hcontra
    rw [signature_source_layout, signature_source_layout] at hmsg
    have h1 := List.append_cancel_left hmsg
    have h2 := List.append_cancel_right h1
    have h3 : t.nanos = t'.nanos := i64_to_le_bytes_inj ht3 ht4 ht1 ht2 h2
    exact ht (congrArg Timestamp.mk h3.symm)
  · intro c' hc
    apply Transaction.verify_of_sign_ne
    dsimp only [Transaction.create, SecretAccount.to_public, SecretAccount.sign]
    intro hcontra
    have hmsg := congrArg Signature.message hcontra
    rw [signature_source_layout, signature_source_layout] at hmsg
    have h1 := List.append_cancel_left hmsg
    have h2 := List.append_cancel_left h1
    exact hc h2.symm
  · intro s' hs
    apply Transaction.verify_of_sign_ne
    dsimp only [Transaction.create, SecretAccount.to_public, SecretAccount.sign] at hs ⊢
    exact hs

/-- Witness for the amended C7: each of the four mutations at concrete
inputs yields the signature error. -/
theorem mutate_field_verify_fails_witness :
    Transaction.verify wEncBool
        ⟨wAccount2, wTimestamp, true, (Transaction.create wEncBool wSecret wTimestamp true).sign⟩ =
      Except.error (TransactionError.Signature SignatureError.invalid) ∧
      Transaction.verify wEncBool
          ⟨(Transaction.create wEncBool wSecret wTimestamp true).account, ⟨1⟩, true,
           (Transaction.create wEncBool wSecret wTimestamp true).sign⟩ =
        Except.error (TransactionError.Signature SignatureError.invalid) ∧
      Transaction.verify wEncBool
          ⟨(Transaction.create wEncBool wSecret wTimestamp true).account, wTimestamp, false,
           (Transaction.create wEncBool wSecret wTimestamp true).sign⟩ =
        Except.error (TransactionError.Signature SignatureError.invalid) ∧
      Transaction.verify wEncBool
          ⟨(Transaction.create wEncBool wSecret wTimestamp true).account, wTimestamp, true,
           ⟨wAccount2, []⟩⟩ =
        Except.error (TransactionError.Signature SignatureError.invalid) := by
  obtain ⟨h1, h2, h3, h4⟩ := mutate_field_verify_fails wEncBool wSecret wTimestamp true
  exact ⟨h1 wAccount2 (by decide), h2 ⟨1⟩ (by decide) (by decide) (by decide) (by decide) (by decide),
    h3 false (by decide), h4 ⟨wAccount2, []⟩ (by decide)⟩

/-! ## block.rs

`calculate_digest` (the SHA-256 function of `crate::digest`, whose defining
revision is not among the sources) is the parameter `hash : Bytes → Bytes` of
everything below.  The merkle tree of the external `rs_merkle` crate is
modelled from the spec (§4.4): leaves are hashed pairwise level by level, a
lone odd node is promoted to the next level, and the root of an empty leaf
list is absent. -/

/-- `Header` from `block.rs`. -/
structure Header where
  height : Nat
  timestamp : Timestamp
  previous_digest : Bytes
  difficulty : Difficulty
  merkle_root : Bytes
  nonce : Nat
  digest : Bytes

/-- `impl ByteOrder for Header`: big-endian height, timestamp bytes,
previous digest, difficulty bytes, merkle root, little-endian nonce — the
`digest` field is never appended. -/
def Header.append_bytes (h : Header) (buf : Bytes) : Bytes :=
  (Difficulty.append_bytes h.difficulty
      (Timestamp.append_bytes h.timestamp (buf ++ u64_to_be_bytes h.height) ++
        h.previous_digest) ++
    h.merkle_root) ++ u64_to_le_bytes h.nonce

/-- `ByteOrder::build_byte_order`: run `append_bytes` on an empty builder. -/
def Header.build_byte_order (h : Header) : Bytes :=
  h.append_bytes []

/-- `Header::set_digest`: recompute the digest from the canonical bytes. -/
def Header.set_digest (hash : Bytes → Bytes) (h : Header) : Header :=
  ⟨h.height, h.timestamp, h.previous_digest, h.difficulty, h.merkle_root, h.nonce,
    hash h.build_byte_order⟩

/-- `Header::modify_nonce`: store the nonce, then eagerly recompute the
digest. -/
def Header.modify_nonce (hash : Bytes → Bytes) (h : Header) (nonce : Nat) : Header :=
  Header.set_digest hash
    ⟨h.height, h.timestamp, h.previous_digest, h.difficulty, h.merkle_root, nonce, h.digest⟩

/-- Modelled from the spec: one level of the binary merkle reduction —
pairwise hashing, with a lone odd node promoted. -/
def merkleLevel (hash : Bytes → Bytes) : List Bytes → List Bytes
  | [] => []
  | [a] => [a]
  | a :: b :: rest => hash (a ++ b) :: merkleLevel hash rest

/-- Modelled from the spec: reduce the levels down to a single root; the
fuel argument (instantiated with the number of leaves, which strictly bounds
the number of levels) keeps the recursion structural. -/
def merkleRootFuel (hash : Bytes → Bytes) : Nat → List Bytes → Option Bytes
  | _, [] => none
  | _, [a] => some a
  | 0, _ :: _ :: _ => none
  | n + 1, a :: b :: rest => merkleRootFuel hash n (merkleLevel hash (a :: b :: rest))

/-- Modelled from the spec: `MerkleTree::root()` — `none` exactly on an
empty leaf list. -/
def merkleRoot (hash : Bytes → Bytes) (leaves : List Bytes) : Option Bytes :=
  merkleRootFuel hash leaves.length leaves

/-- `build_merkle_tree` from `block.rs` composed with `root()`: the leaves
are `calculate_digest(tx.sign().as_ref())` in transaction order. -/
def build_merkle_root {T : Type} {V : VState} (hash : Bytes → Bytes)
    (transactions : List (Transaction T V)) : Option Bytes :=
  merkleRoot hash (transactions.map fun tx => hash tx.sign.bytes)

/-- `Header::create`: compute the merkle root (failing on an empty
transaction list), build the header with a temporary digest
(`calculate_digest("")`), then `modify_nonce` to set the nonce and the real
digest. -/
def Header.create {T : Type} {V : VState} (hash : Bytes → Bytes) (height : Nat)
    (timestamp : Timestamp) (previous_digest : Bytes) (difficulty : Difficulty)
    (transactions : List (Transaction T V)) (nonce : Nat) : Option Header :=
  match build_merkle_root hash transactions with
  | none => none
  | some merkle_root =>
    let header : Header :=
      ⟨height, timestamp, previous_digest, difficulty, merkle_root, nonce, hash []⟩
    some (Header.modify_nonce hash header nonce)

/-- `BlockError` from `block.rs`. -/
inductive BlockError where
  | Transaction (e : TransactionError)
  | Empty
  | Digest
  | PreviousDigest
  | Merkle
  | Difficulty
  deriving Repr, DecidableEq

/-- `Block<T, VT, VB>` from `block.rs`. -/
structure Block (T : Type) (VT : VState) (VB : VState) where
  header : Header
  transactions : List (Transaction T VT)

/-- `Block::create`: nonce 0, header built by `Header::create`; an empty
transaction list yields `BlockError::Empty`. -/
def Block.create {T : Type} {VT : VState} (hash : Bytes → Bytes) (height : Nat)
    (timestamp : Timestamp) (previous_digest : Bytes) (difficulty : Difficulty)
    (transactions : List (Transaction T VT)) :
    Except BlockError (Block T VT VState.yet) :=
  match Header.create hash height timestamp previous_digest difficulty transactions 0 with
  | none => Except.error BlockError.Empty
  | some header => Except.ok ⟨header, transactions⟩

/-- `Block::verify_block`: the five ordered checks of `block.rs`, stopping
at the first failure. -/
def Block.verify_block {T : Type} {VT : VState} (hash : Bytes → Bytes)
    (b : Block T VT VState.yet) (previous_digest_judge : Header → Bool) :
    Except BlockError (Block T VT VState.verified) :=
  match build_merkle_root hash b.transactions with
  | none => Except.error BlockError.Empty
  | some merkle_root =>
    if merkle_root ≠ b.header.merkle_root then Except.error BlockError.Merkle
    else if ¬(b.header.difficulty.verify_digest b.header.digest) then
      Except.error BlockError.Difficulty
    else if b.header.digest ≠ hash b.header.build_byte_order then
      Except.error BlockError.Digest
    else if ¬(previous_digest_judge b.header) then Except.error BlockError.PreviousDigest
    else Except.ok ⟨b.header, b.transactions⟩

theorem merkleLevel_length (hash : Bytes → Bytes) :
    ∀ l, (merkleLevel hash l).length = (l.length + 1) / 2
  | [] => by simp [merkleLevel]
  | [a] => by simp [merkleLevel]
  | a :: b :: rest => by
    simp only [merkleLevel, List.length_cons, merkleLevel_length hash rest]
    omega

theorem merkleRootFuel_isSome (hash : Bytes → Bytes) :
    ∀ (n : Nat) (l : List Bytes), l ≠ [] → l.length ≤ n + 1 →
      (merkleRootFuel hash n l).isSome = true
  | _, [], h, _ => absurd rfl h
  | 0, [_], _, _ => rfl
  | _ + 1, [_], _, _ => rfl
  | 0, _ :: _ :: _, _, hlen => by simp at hlen
  | n + 1, a :: b :: rest, _, hlen => by
    have hlev := merkleLevel_length hash (a :: b :: rest)
    apply merkleRootFuel_isSome hash n
    · intro hempty
      rw [hempty] at hlev
      simp only [List.length_nil, List.length_cons] at hlev
      omega
    · rw [hlev]
      simp only [List.length_cons] at hlen ⊢
      omega

theorem merkleRoot_isSome (hash : Bytes → Bytes) (l : List Bytes) (h : l ≠ []) :
    (merkleRoot hash l).isSome = true :=
  merkleRootFuel_isSome hash l.length l h (by omega)

theorem merkleRoot_none_iff (hash : Bytes → Bytes) (l : List Bytes) :
    merkleRoot hash l = none ↔ l = [] := by
  constructor
  · intro h
    by_contra hne
    have := merkleRoot_isSome hash l hne
    rw [h] at this
    simp at this
  · rintro rfl
    rfl

theorem build_merkle_root_none_iff {T : Type} {V : VState} (hash : Bytes → Bytes)
    (txs : List (Transaction T V)) :
    build_merkle_root hash txs = none ↔ txs = [] := by
  rw [build_merkle_root, merkleRoot_none_iff]
  simp

/-- **C8.** The merkle tree of the transactions has an absent root iff the
transaction list is empty; `Header::create` returns `None` and
`Block::create` returns the `Empty` error exactly in that case, and on every
non-empty transaction list both constructions succeed. -/
theorem create_empty_iff {T : Type} {VT : VState} (hash : Bytes → Bytes) (height : Nat)
    (t : Timestamp) (prev : Bytes) (diff : Difficulty)
    (txs : List (Transaction T VT)) (nonce : Nat) :
    (build_merkle_root hash txs = none ↔ txs = []) ∧
      (Header.create hash height t prev diff txs nonce = none ↔ txs = []) ∧
      (Block.create hash height t prev diff txs = Except.error BlockError.Empty ↔ txs = []) ∧
      (txs ≠ [] →
        (∃ hdr, Header.create hash height t prev diff txs nonce = some hdr) ∧
          ∃ blk, Block.create hash height t prev diff txs = Except.ok blk) := by
  refine ⟨build_merkle_root_none_iff hash txs, ?_, ?_, ?_⟩
  · rw [Header.create]
    rcases h : build_merkle_root hash txs with _ | r
    · simpa using (build_merkle_root_none_iff hash txs).mp h
    · have htx : txs ≠ [] := fun he => by
        rw [(build_merkle_root_none_iff hash txs).mpr he] at h
        cases h
      simp [htx]
  · rw [Block.create, Header.create]
    rcases h : build_merkle_root hash txs with _ | r
    · simpa using (build_merkle_root_none_iff hash txs).mp h
    · have htx : txs ≠ [] := fun he => by
        rw [(build_merkle_root_none_iff hash txs).mpr he] at h
        cases h
      simp [htx]
  · intro htx
    rcases h : build_merkle_root hash txs with _ | r
    · exact absurd ((build_merkle_root_none_iff hash txs).mp h) htx
    · constructor
      · exact ⟨_, by rw [Header.create, h]⟩
      · exact ⟨_, by rw [Block.create, Header.create, h]⟩

/-- A concrete all-zero 32-byte digest. -/
def wZeros : Bytes := List.replicate 32 0

/-- A concrete stand-in for `calculate_digest`: the constant all-zero
digest. -/
def wHash : Bytes → Bytes := fun _ => wZeros

/-- Witness for C8 on the non-empty list `[wYetTx]` and the empty list. -/
theorem create_empty_iff_witness :
    (Header.create wHash 1 wTimestamp wZeros ⟨0⟩ [wYetTx] 5 = none ↔
        ([wYetTx] : List (Transaction Unit VState.yet)) = []) ∧
      (∃ hdr, Header.create wHash 1 wTimestamp wZeros ⟨0⟩ [wYetTx] 5 = some hdr) ∧
      (∃ blk, Block.create wHash 1 wTimestamp wZeros ⟨0⟩ [wYetTx] = Except.ok blk) ∧
      Header.create wHash 1 wTimestamp wZeros ⟨0⟩ ([] : List (Transaction Unit VState.yet)) 5
        = none := by
  obtain ⟨-, hn, -, hs⟩ := create_empty_iff wHash 1 wTimestamp wZeros ⟨0⟩ [wYetTx] 5
  obtain ⟨-, he, -, -⟩ :=
    create_empty_iff wHash 1 wTimestamp wZeros ⟨0⟩ ([] : List (Transaction Unit VState.yet)) 5
  obtain ⟨h1, h2⟩ := hs (by simp)
  exact ⟨hn, h1, h2, he.mpr rfl⟩

/-- **C4.** The digest preimage of a `Header` is exactly
`height ++ timestamp ++ previous_digest ++ difficulty ++ merkle_root ++ nonce`
— height as 8 big-endian bytes, nonce as 8 little-endian bytes, the stored
digest excluded (changing it does not change the preimage) — and both
`Header::create` and `Header::modify_nonce` store `hash` of that preimage as
the header's digest. -/
theorem header_digest_preimage {T : Type} {VT : VState} (hash : Bytes → Bytes)
    (h : Header) (d' : Bytes) (n : Nat) (height : Nat) (t : Timestamp) (prev : Bytes)
    (diff : Difficulty) (txs : List (Transaction T VT)) (nonce : Nat) (hdr : Header) :
    Header.build_byte_order h =
        u64_to_be_bytes h.height ++ (i64_to_le_bytes h.timestamp.nanos ++
          (h.previous_digest ++ (u64_to_le_bytes h.difficulty.val ++
            (h.merkle_root ++ u64_to_le_bytes h.nonce)))) ∧
      Header.build_byte_order
          ⟨h.height, h.timestamp, h.previous_digest, h.difficulty, h.merkle_root, h.nonce, d'⟩ =
        Header.build_byte_order h ∧
      (Header.modify_nonce hash h n).digest =
        hash (Header.build_byte_order (Header.modify_nonce hash h n)) ∧
      (Header.create hash height t prev diff txs nonce = some hdr →
        hdr.digest = hash (Header.build_byte_order hdr)) := by
  refine ⟨?_, rfl, rfl, ?_⟩
  · simp [Header.build_byte_order, Header.append_bytes, Difficulty.append_bytes,
      Timestamp.append_bytes]
  · intro hcreate
    rw [Header.create] at hcreate
    rcases hroot : build_merkle_root hash txs with _ | r
    · rw [hroot] at hcreate
      cases hcreate
    · rw [hroot] at hcreate
      have : Header.modify_nonce hash
          ⟨height, t, prev, diff, r, nonce, hash []⟩ nonce = hdr := by
        injection hcreate
      rw [← this]
      rfl

/-- Witness for C4: `Header::create` at a concrete input yields a header
whose stored digest is the hash of its own (digest-free) preimage. -/
theorem header_digest_preimage_witness :
    Header.create wHash 1 wTimestamp wZeros ⟨0⟩ [wYetTx] 5 =
        some ⟨1, wTimestamp, wZeros, ⟨0⟩, wZeros, 5, wZeros⟩ ∧
      (⟨1, wTimestamp, wZeros, ⟨0⟩, wZeros, 5, wZeros⟩ : Header).digest =
        wHash (Header.build_byte_order ⟨1, wTimestamp, wZeros, ⟨0⟩, wZeros, 5, wZeros⟩) := by
  have h := (@header_digest_preimage Unit VState.yet wHash
    ⟨1, wTimestamp, wZeros, ⟨0⟩, wZeros, 5, wZeros⟩ [] 0 1 wTimestamp wZeros ⟨0⟩
    [wYetTx] 5 ⟨1, wTimestamp, wZeros, ⟨0⟩, wZeros, 5, wZeros⟩).2.2.2
  exact ⟨rfl, h rfl⟩

/-- **C1.** `verify_block` performs five checks in order, stopping at the
first failure with a distinct error: empty transaction list → `Empty`;
recomputed merkle root differs from the stored one → `Merkle`; the stored
digest fails the difficulty predicate → `Difficulty`; the recomputed header
digest differs from the stored one → `Digest`; the caller predicate rejects
the header → `PreviousDigest`; when all five pass, the result is `Ok` with
the input's header and transactions. -/
theorem verify_block_five_checks {T : Type} {VT : VState} (hash : Bytes → Bytes)
    (b : Block T VT VState.yet) (p : Header → Bool) :
    (b.transactions = [] → Block.verify_block hash b p = Except.error BlockError.Empty) ∧
      (b.transactions ≠ [] → ∃ r, build_merkle_root hash b.transactions = some r) ∧
      ∀ r, build_merkle_root hash b.transactions = some r →
        (r ≠ b.header.merkle_root →
            Block.verify_block hash b p = Except.error BlockError.Merkle) ∧
          (r = b.header.merkle_root →
            b.header.difficulty.verify_digest b.header.digest = false →
            Block.verify_block hash b p = Except.error BlockError.Difficulty) ∧
          (r = b.header.merkle_root →
            b.header.difficulty.verify_digest b.header.digest = true →
            b.header.digest ≠ hash b.header.build_byte_order →
            Block.verify_block hash b p = Except.error BlockError.Digest) ∧
          (r = b.header.merkle_root →
            b.header.difficulty.verify_digest b.header.digest = true →
            b.header.digest = hash b.header.build_byte_order →
            p b.header = false →
            Block.verify_block hash b p = Except.error BlockError.PreviousDigest) ∧
          (r = b.header.merkle_root →
            b.header.difficulty.verify_digest b.header.digest = true →
            b.header.digest = hash b.header.build_byte_order →
            p b.header = true →
            Block.verify_block hash b p = Except.ok ⟨b.header, b.transactions⟩) := by
  refine ⟨?_, ?_, ?_⟩
  · intro htx
    rw [Block.verify_block, (build_merkle_root_none_iff hash b.transactions).mpr htx]
  · intro htx
    have := merkleRoot_isSome hash (b.transactions.map fun tx => hash tx.sign.bytes)
      (by simpa using htx)
    rw [← build_merkle_root] at this
    exact Option.isSome_iff_exists.mp this
  · intro r hr
    refine ⟨?_, ?_, ?_, ?_, ?_⟩
    · intro hne
      simp only [Block.verify_block, hr]
      rw [if_pos hne]
    · intro heq hdiff
      simp only [Block.verify_block, hr]
      rw [if_neg (not_not_intro heq), if_pos (by simp [hdiff])]
    · intro heq hdiff hdig
      simp only [Block.verify_block, hr]
      rw [if_neg (not_not_intro heq), if_neg (by simp [hdiff]), if_pos hdig]
    · intro heq hdiff hdig hp
      simp only [Block.verify_block, hr]
      rw [if_neg (not_not_intro heq), if_neg (by simp [hdiff]),
        if_neg (not_not_intro hdig), if_pos (by simp [hp])]
    · intro heq hdiff hdig hp
      simp only [Block.verify_block, hr]
      rw [if_neg (not_not_intro heq), if_neg (by simp [hdiff]),
        if_neg (not_not_intro hdig), if_neg (by simp [hp])]

/-- A concrete block on which every check of `verify_block` passes under
`wHash`. -/
def wBlock : Block Unit VState.yet VState.yet :=
  ⟨⟨42, wTimestamp, wZeros, ⟨0⟩, wZeros, 0, wZeros⟩, [wYetTx]⟩

/-- Witness for C1: on `wBlock` with an always-true predicate all five
checks pass and `verify_block` returns `Ok` with the same header and
transactions; emptying the transactions yields the `Empty` error. -/
theorem verify_block_five_checks_witness :
    Block.verify_block wHash wBlock (fun _ => true) =
        Except.ok ⟨wBlock.header, wBlock.transactions⟩ ∧
      Block.verify_block wHash (⟨wBlock.header, []⟩ : Block Unit VState.yet VState.yet)
          (fun _ => true) =
        Except.error BlockError.Empty := by
  obtain ⟨-, -, hr⟩ := verify_block_five_checks wHash wBlock (fun _ => true)
  obtain ⟨hempty, -, -⟩ :=
    verify_block_five_checks wHash (⟨wBlock.header, []⟩ : Block Unit VState.yet VState.yet)
      (fun _ => true)
  exact ⟨(hr wZeros rfl).2.2.2.2 rfl (by decide) rfl rfl, hempty rfl⟩

end Jellyfish
